import Mathlib

/-!
# Employee CRUD handlers over a document collection

A shallow embedding of `main.go`: the four request handlers `getEmployees`,
`createEmployee`, `editEmployee` and `deleteEmployee`, the `Employee` record with
its JSON and BSON encodings, and the parts of the HTTP context and of the
database driver the handlers call.  The handlers are state-passing functions
over a `Collection σ`, the driver's operations on a database state `σ`; a
recording collection logs the operations a handler issues, and a model
collection gives the operations a meaning on a list of stored documents.
-/

namespace EmployeeApi

/-! ## Values -/

/-- A `float64`, by its 64-bit IEEE 754 pattern: one sign bit, eleven exponent
bits and 52 mantissa bits. -/
structure Float64 where
  bits : Fin (2 ^ 64)
  deriving DecidableEq, Repr

/-- The biased exponent of a `float64`. -/
def Float64.exponent (f : Float64) : Nat := f.bits.val / 2 ^ 52 % 2048

/-- The mantissa bits of a `float64`. -/
def Float64.mantissa (f : Float64) : Nat := f.bits.val % 2 ^ 52

/-- The sign bit of a `float64`. -/
def Float64.signbit (f : Float64) : Bool := decide (2 ^ 63 ≤ f.bits.val)

/-- The test `math.IsNaN`. -/
def Float64.IsNaN (f : Float64) : Bool := f.exponent == 2047 && f.mantissa != 0

/-- The test `math.IsInf(f, 0)`. -/
def Float64.IsInf (f : Float64) : Bool := f.exponent == 2047 && f.mantissa == 0

/-- Whether a `float64` is neither an infinity nor a NaN. -/
def Float64.isFinite (f : Float64) : Bool := !(f.IsInf || f.IsNaN)

/-- The text `strconv.FormatFloat(f, 'g', -1, 64)` gives for a value that is not
finite. -/
def Float64.formatNonFinite (f : Float64) : String :=
  if f.IsNaN then "NaN" else if f.signbit then "-Inf" else "+Inf"

/-- The driver's `primitive.ObjectID`, a `[12]byte`. -/
def ObjectID : Type := { bs : List (Fin 256) // bs.length = 12 }

instance : DecidableEq ObjectID :=
  inferInstanceAs (DecidableEq { bs : List (Fin 256) // bs.length = 12 })

/-- The errors the handlers can see.  `ErrInvalidHex` and `ErrNoDocuments` are the
driver's sentinel values `primitive.ErrInvalidHex` and `mongo.ErrNoDocuments`,
`InvalidByteError` and `ErrLength` are the ones of `encoding/hex`,
`UnsupportedValueError` is the one of `encoding/json`, with its field `Str`, and
`other` is any other error value, given by its text. -/
inductive GoError where
  | ErrInvalidHex
  | InvalidByteError (b : Nat)
  | ErrLength
  | UnsupportedValueError (Str : String)
  | ErrNoDocuments
  | other (msg : String)
  deriving DecidableEq, Repr

/-! ## Hexadecimal object identifiers -/

/-- The digit `"0123456789abcdef"[n]` of `encoding/hex`. -/
def hexDigit (n : Nat) : Char :=
  if n < 10 then Char.ofNat (48 + n) else Char.ofNat (87 + n)

/-- The digit `"0123456789ABCDEF"[n]`, used by the `%U` verb. -/
def upperHexDigit (n : Nat) : Char :=
  if n < 10 then Char.ofNat (48 + n) else Char.ofNat (55 + n)

/-- The value of a hexadecimal digit, `none` for any other character
(`fromHexChar` of `encoding/hex`). -/
def fromHexChar (c : Char) : Option Nat :=
  let n := c.toNat
  if 48 ≤ n ∧ n ≤ 57 then some (n - 48)
  else if 97 ≤ n ∧ n ≤ 102 then some (n - 97 + 10)
  else if 65 ≤ n ∧ n ≤ 70 then some (n - 65 + 10)
  else none

/-- Whether a character is one of `0-9`, `a-f`, `A-F`. -/
def isHexChar (c : Char) : Bool := (fromHexChar c).isSome

/-- The first byte of the UTF-8 encoding of a character: the byte a bytewise
scan of the string meets at this character. -/
def leadByte (c : Char) : Nat :=
  let n := c.toNat
  if n ≤ 0x7f then n
  else if n ≤ 0x7ff then 0xc0 + n / 64
  else if n ≤ 0xffff then 0xe0 + n / 4096
  else 0xf0 + n / 262144

/-- The text of `strconv.IsPrint` on a rune below 256. -/
def isPrintLatin1 (r : Nat) : Bool :=
  (0x20 ≤ r && r ≤ 0x7e) || (0xa1 ≤ r && r ≤ 0xff && r != 0xad)

/-- The verb `%#U` on a byte: `U+0047 'G'`. -/
def fmtUnicode (b : Nat) : String :=
  "U+00" ++ String.mk [upperHexDigit (b / 16 % 16), upperHexDigit (b % 16)] ++
    (if isPrintLatin1 b then " '" ++ String.mk [Char.ofNat b] ++ "'" else "")

/-- The method `Error()` of an error value. -/
def GoError.Error : GoError → String
  | .ErrInvalidHex => "the provided hex string is not a valid ObjectID"
  | .InvalidByteError b => "encoding/hex: invalid byte: " ++ fmtUnicode b
  | .ErrLength => "encoding/hex: odd length hex string"
  | .UnsupportedValueError str => "json: unsupported value: " ++ str
  | .ErrNoDocuments => "mongo: no documents in result"
  | .other msg => msg

/-- The loop of `hex.Decode`: two digits give one byte, the first byte that is
no digit is reported, and a source of odd length is refused after its last
byte has been checked.  A character outside ASCII is met at its first UTF-8
byte, which is no digit. -/
def hexDecode : List Char → Except GoError (List (Fin 256))
  | [] => .ok []
  | [p] =>
    match fromHexChar p with
    | none => .error (.InvalidByteError (leadByte p))
    | some _ => .error .ErrLength
  | p :: q :: rest =>
    match fromHexChar p with
    | none => .error (.InvalidByteError (leadByte p))
    | some a =>
      match fromHexChar q with
      | none => .error (.InvalidByteError (leadByte q))
      | some b =>
        match hexDecode rest with
        | .error e => .error e
        | .ok bs => .ok (Fin.ofNat (a * 16 + b) :: bs)

/-- The statement `copy(oid[:], b)` into a zeroed `[12]byte`. -/
def copy12 (b : List (Fin 256)) : ObjectID :=
  ⟨(b ++ List.replicate 12 0).take 12, by simp⟩

/-- The driver's `primitive.ObjectIDFromHex`: the string must be 24 bytes long
and decode as hexadecimal. -/
def ObjectIDFromHex (s : String) : Except GoError ObjectID :=
  if s.utf8ByteSize ≠ 24 then .error .ErrInvalidHex
  else
    match hexDecode s.data with
    | .error e => .error e
    | .ok b => .ok (copy12 b)

/-- The loop of `hex.Encode`. -/
def hexEncode : List (Fin 256) → List Char
  | [] => []
  | b :: bs => hexDigit (b.val / 16) :: hexDigit (b.val % 16) :: hexEncode bs

/-- The method `ObjectID.Hex`. -/
def ObjectID.Hex (id : ObjectID) : String := String.mk (hexEncode id.val)

/-! ## Documents and JSON -/

/-- The Go values the handlers put in a `bson.E`: the nil interface value, a
string, an `int64`, a `float64`, an `ObjectID`, or a nested `bson.D`. -/
inductive BsonValue where
  | nil
  | string (s : String)
  | int64 (i : Int)
  | double (f : Float64)
  | objectID (o : ObjectID)
  | document (d : List (String × BsonValue))

/-- The element `bson.E`, a key and a value. -/
abbrev E : Type := String × BsonValue

/-- The ordered document `bson.D`, a slice of elements. -/
abbrev D : Type := List E

/-- The zero value `bson.E{}` that an empty composite literal `{}` denotes. -/
def E.zero : E := ("", .nil)

/-- A JSON text, as a tree. -/
inductive Json where
  | null
  | str (s : String)
  | int (i : Int)
  | float (f : Float64)
  | arr (xs : List Json)
  | obj (kvs : List (String × Json))

/-- A Go slice: `nil`, or a slice header over its elements. -/
inductive Slice (α : Type) where
  | nil
  | mk (elems : List α)

/-- The struct `Employee`; `Age` is an `int64`, which the handlers never
compute with. -/
structure Employee where
  Id : String
  Name : String
  Age : Int
  Salary : Float64
  deriving DecidableEq, Repr

/-- The value `new(Employee)` points to. -/
def Employee.zero : Employee := ⟨"", "", 0, ⟨0⟩⟩

/-- The JSON tree of a record under its struct tags: `id` is left out when empty.
It is the encoding of the record when the salary is finite. -/
def Employee.toJSON (e : Employee) : Json :=
  .obj ((if e.Id = "" then [] else [("id", .str e.Id)]) ++
    [("name", .str e.Name), ("age", .int e.Age), ("salary", .float e.Salary)])

/-- The JSON encoder on a `float64`: an infinity or a NaN is an unsupported
value. -/
def Float64.MarshalJSON (f : Float64) : Except GoError Json :=
  if f.IsInf || f.IsNaN then .error (.UnsupportedValueError f.formatNonFinite)
  else .ok (.float f)

/-- The JSON encoder on an `Employee`, field by field under the struct tags; it
fails when the salary does. -/
def Employee.MarshalJSON (e : Employee) : Except GoError Json :=
  match e.Salary.MarshalJSON with
  | .error err => .error err
  | .ok salary =>
    .ok (.obj ((if e.Id = "" then [] else [("id", .str e.Id)]) ++
      [("name", .str e.Name), ("age", .int e.Age), ("salary", salary)]))

/-- The JSON encoder on the elements of a `[]Employee`, in order; it stops at
the first element that fails. -/
def marshalEmployees : List Employee → Except GoError (List Json)
  | [] => .ok []
  | e :: es =>
    match e.MarshalJSON with
    | .error err => .error err
    | .ok j =>
      match marshalEmployees es with
      | .error err => .error err
      | .ok js => .ok (j :: js)

/-- The BSON encoding the struct tags give: `_id` is left out when empty, and a
field without a `bson` tag goes under its lower-cased name. -/
def Employee.toBSON (e : Employee) : D :=
  (if e.Id = "" then [] else [("_id", .string e.Id)]) ++
    [("name", .string e.Name), ("age", .int64 e.Age), ("salary", .double e.Salary)]

/-- The values the handlers hand to `ctx.JSON`: a string, an `*Employee`, or a
`[]Employee`. -/
inductive GoValue where
  | string (s : String)
  | employee (e : Employee)
  | employees (es : Slice Employee)

/-- The encoder `json.Marshal` on those values: a nil slice is `null`, any other
slice an array. -/
def Marshal : GoValue → Except GoError Json
  | .string s => .ok (.str s)
  | .employee e => e.MarshalJSON
  | .employees .nil => .ok .null
  | .employees (.mk es) =>
    match marshalEmployees es with
    | .error err => .error err
    | .ok js => .ok (.arr js)

/-! ## The HTTP context -/

/-- What a handler reads from `*fiber.Ctx`: the route parameter `id` and the
outcome of `BodyParser` on a fresh `Employee`.  `BodyParser` decodes JSON, XML
and form bodies, so the salary of a parsed body can be any `float64`. -/
structure Ctx where
  id : String
  BodyParser : Except GoError Employee

/-- A response body: a string sent as is, or a JSON text. -/
inductive Body where
  | text (s : String)
  | json (v : Json)

/-- What a handler leaves in the response. -/
structure Response where
  status : Nat
  body : Body

/-- The reason phrases of `utils.StatusMessage` for the codes in use. -/
def StatusMessage (status : Nat) : String :=
  match status with
  | 200 => "OK"
  | 201 => "Created"
  | 400 => "Bad Request"
  | 404 => "Not Found"
  | 500 => "Internal Server Error"
  | _ => ""

/-- The call `ctx.Status(status).SendString(s)`. -/
def SendString (status : Nat) (s : String) : Response := ⟨status, .text s⟩

/-- The call `ctx.SendStatus(status)` on a response with no body yet: the body
is the reason phrase. -/
def SendStatus (status : Nat) : Response := ⟨status, .text (StatusMessage status)⟩

/-- The `DefaultErrorHandler` of fiber on an error a handler returns that is no
`*fiber.Error`: status 500 with the error text. -/
def DefaultErrorHandler (err : GoError) : Response := ⟨500, .text err.Error⟩

/-- The statement `return ctx.Status(status).JSON(v)` of a handler, under the
default configuration of `fiber.New()`: the encoded value is the body, and when
the encoder fails the handler returns its error, which the default error handler
answers. -/
def JSON (status : Nat) (v : GoValue) : Response :=
  match Marshal v with
  | .ok raw => ⟨status, .json raw⟩
  | .error err => DefaultErrorHandler err

/-! ## The driver -/

/-- The driver's `mongo.DeleteResult`; `DeletedCount` is an `int64`. -/
structure DeleteResult where
  DeletedCount : Int

/-- The driver's `mongo.InsertOneResult`. -/
structure InsertOneResult where
  InsertedID : BsonValue

/-- The driver's `mongo.SingleResult`: the error of the operation, and what
unmarshalling the document found does to the value decoded into. -/
structure SingleResult where
  err : Option GoError
  unmarshal : Employee → Employee × Option GoError

/-- The method `SingleResult.Err`. -/
def SingleResult.Err (sr : SingleResult) : Option GoError := sr.err

/-- The method `SingleResult.Decode`: the operation's error is returned with the
value untouched, else the document is unmarshalled into the value. -/
def SingleResult.Decode (sr : SingleResult) (v : Employee) : Employee × Option GoError :=
  match sr.err with
  | some e => (v, some e)
  | none => sr.unmarshal v

/-- The driver's `mongo.Cursor` as `All` sees it: the records it reads, or the
error that stops the read. -/
structure Cursor where
  read : List Employee
  err : Option GoError

/-- The reslicing `sliceVal.Slice(0, index)` once `elems` have been appended
from index 0: a nil slice that nothing was appended to stays nil. -/
def Slice.reslice (s : Slice Employee) (elems : List Employee) : Slice Employee :=
  match s, elems with
  | .nil, [] => .nil
  | _, _ => .mk elems

/-- The method `Cursor.All`: on an error the error, else the records read
replace the contents of the slice. -/
def Cursor.All (c : Cursor) (results : Slice Employee) : Slice Employee × Option GoError :=
  match c.err with
  | some e => (results, some e)
  | none => (results.reslice c.read, none)

/-- The operations of `*mongo.Collection` the handlers call, on a database
state `σ`. -/
structure Collection (σ : Type) where
  DeleteOne : D → σ → Except GoError DeleteResult × σ
  FindOneAndUpdate : D → D → σ → SingleResult × σ
  InsertOne : Employee → σ → Except GoError InsertOneResult × σ
  FindOne : D → σ → SingleResult × σ
  Find : D → σ → Except GoError Cursor × σ

/-! ## The handlers -/

/-- The handler `deleteEmployee`. -/
def deleteEmployee {σ : Type} (coll : Collection σ) (ctx : Ctx) (db : σ) : Response × σ :=
  let id := ctx.id
  match ObjectIDFromHex id with
  | .error err => (SendString 400 err.Error, db)
  | .ok employeeId =>
    let query : D := [("_id", .objectID employeeId)]
    match coll.DeleteOne query db with
    | (.error err, db) => (SendString 500 err.Error, db)
    | (.ok res, db) =>
      if res.DeletedCount < 1 then (SendStatus 404, db)
      else (JSON 200 (.string "record deleted"), db)

/-- The handler `editEmployee`. -/
def editEmployee {σ : Type} (coll : Collection σ) (ctx : Ctx) (db : σ) : Response × σ :=
  let id := ctx.id
  match ObjectIDFromHex id with
  | .error err => (SendString 400 err.Error, db)
  | .ok employeeId =>
    match ctx.BodyParser with
    | .error err => (SendString 400 err.Error, db)
    | .ok employee =>
      let query : D := [("_id", .objectID employeeId)]
      let update : D := [("$set", .document [
        ("name", .string employee.Name),
        ("age", .int64 employee.Age),
        ("salary", .double employee.Salary)])]
      match coll.FindOneAndUpdate query update db with
      | (res, db) =>
        match res.Err with
        | some err =>
          if err = .ErrNoDocuments then (SendStatus 400, db)
          else (SendString 500 err.Error, db)
        | none =>
          let employee := { employee with Id := id }
          (JSON 200 (.employee employee), db)

/-- The handler `createEmployee`. -/
def createEmployee {σ : Type} (coll : Collection σ) (ctx : Ctx) (db : σ) : Response × σ :=
  match ctx.BodyParser with
  | .error err => (SendString 400 err.Error, db)
  | .ok employee =>
    let employee := { employee with Id := "" }
    match coll.InsertOne employee db with
    | (.error err, db) => (SendString 500 err.Error, db)
    | (.ok res, db) =>
      let query : D := [("_id", res.InsertedID)]
      match coll.FindOne query db with
      | (createdRecord, db) =>
        let createdEmployee := Employee.zero
        let createdEmployee := (createdRecord.Decode createdEmployee).1
        (JSON 201 (.employee createdEmployee), db)

/-- The handler `getEmployees`; `ctx.JSON` keeps the default status 200. -/
def getEmployees {σ : Type} (coll : Collection σ) (_ctx : Ctx) (db : σ) : Response × σ :=
  let query : D := [E.zero]
  match coll.Find query db with
  | (.error err, db) => (SendString 500 err.Error, db)
  | (.ok cursor, db) =>
    let employees : Slice Employee := .mk []
    match cursor.All employees with
    | (_, some err) => (SendString 500 err.Error, db)
    | (employees, none) => (JSON 200 (.employees employees), db)

/-! ## Recording the operations a handler issues -/

/-- A call on the collection, with its arguments. -/
inductive DbCall where
  | DeleteOne (filter : D)
  | FindOneAndUpdate (filter : D) (update : D)
  | InsertOne (document : Employee)
  | FindOne (filter : D)
  | Find (filter : D)

/-- The collection `coll` with a log: every call is appended to the log and
then answered by `coll`. -/
def recording {σ : Type} (coll : Collection σ) : Collection (σ × List DbCall) where
  DeleteOne filter s :=
    ((coll.DeleteOne filter s.1).1, ((coll.DeleteOne filter s.1).2, s.2 ++ [.DeleteOne filter]))
  FindOneAndUpdate filter update s :=
    ((coll.FindOneAndUpdate filter update s.1).1,
      ((coll.FindOneAndUpdate filter update s.1).2, s.2 ++ [.FindOneAndUpdate filter update]))
  InsertOne document s :=
    ((coll.InsertOne document s.1).1, ((coll.InsertOne document s.1).2, s.2 ++ [.InsertOne document]))
  FindOne filter s :=
    ((coll.FindOne filter s.1).1, ((coll.FindOne filter s.1).2, s.2 ++ [.FindOne filter]))
  Find filter s :=
    ((coll.Find filter s.1).1, ((coll.Find filter s.1).2, s.2 ++ [.Find filter]))

/-- The calls a handler issues on `coll` from the state `db`, in order. -/
def callsOf {σ : Type} (handler : Collection (σ × List DbCall) → Ctx → σ × List DbCall →
    Response × (σ × List DbCall)) (coll : Collection σ) (ctx : Ctx) (db : σ) : List DbCall :=
  (handler (recording coll) ctx (db, [])).2.2

/-! ## A model collection -/

/-- A stored employee document, keyed by an `ObjectID`. -/
structure Document where
  _id : ObjectID
  name : String
  age : Int
  salary : Float64
  deriving DecidableEq

/-- The value of a field of a stored document, `none` when it has no such field. -/
def Document.field (d : Document) (key : String) : Option BsonValue :=
  if key = "_id" then some (.objectID d._id)
  else if key = "name" then some (.string d.name)
  else if key = "age" then some (.int64 d.age)
  else if key = "salary" then some (.double d.salary)
  else none

/-- An equality condition of a filter on a field: a missing field matches the
nil value, a present field matches the equal value. -/
def matchValue : Option BsonValue → BsonValue → Bool
  | none, .nil => true
  | some (.objectID a), .objectID b => decide (a = b)
  | some (.string a), .string b => decide (a = b)
  | some (.int64 a), .int64 b => decide (a = b)
  | some (.double a), .double b => decide (a = b)
  | _, _ => false

/-- Whether a stored document meets every element of a filter. -/
def Document.matches (filter : D) (d : Document) : Bool :=
  filter.all fun e => matchValue (d.field e.1) e.2

/-- One assignment of a `$set`: `name`, `age` and `salary` are the fields a
stored document has besides its `_id`. -/
def Document.setField (d : Document) (e : E) : Document :=
  match e with
  | (key, .string s) => if key = "name" then { d with name := s } else d
  | (key, .int64 i) => if key = "age" then { d with age := i } else d
  | (key, .double f) => if key = "salary" then { d with salary := f } else d
  | _ => d

/-- An update document applied to a stored document: every `$set` assigns its
fields in order. -/
def Document.applyUpdate (update : D) (d : Document) : Document :=
  update.foldl (fun d op =>
    match op with
    | (key, .document fields) => if key = "$set" then fields.foldl Document.setField d else d
    | _ => d) d

/-- The list with `f` applied to its first element that satisfies `p`. -/
def updateFirst (p : Document → Bool) (f : Document → Document) : List Document → List Document
  | [] => []
  | d :: ds => if p d then f d :: ds else d :: updateFirst p f ds

/-- The record a stored document unmarshals to: the `ObjectID` decodes into the
string field as its hexadecimal form. -/
def Document.toEmployee (d : Document) : Employee :=
  ⟨d._id.Hex, d.name, d.age, d.salary⟩

/-- The identifier the model collection generates from its counter: the counter
in twelve big-endian bytes. -/
def NewObjectID (n : Nat) : ObjectID :=
  ⟨(List.range 12).map fun i => Fin.ofNat (n / 256 ^ (11 - i)), by simp⟩

/-- The state of the model collection: the stored documents, no two with the
same `_id`, and the counter identifiers are generated from. -/
structure Store where
  docs : List Document
  counter : Nat
  unique : (docs.map Document._id).Nodup

/-- The store with nothing in it. -/
def Store.empty : Store := ⟨[], 0, by simp⟩

/-- Delete-one on the model collection: the first document matching the filter
is removed, and the count is how many documents were removed. -/
def Store.DeleteOne (filter : D) (s : Store) : Except GoError DeleteResult × Store :=
  (.ok ⟨(s.docs.length : Int) - ((s.docs.eraseP (Document.matches filter)).length : Int)⟩,
    ⟨s.docs.eraseP (Document.matches filter), s.counter,
      (List.eraseP_sublist s.docs).map Document._id |>.nodup s.unique⟩)

/-- The single result for a document found, or the no-documents error. -/
def singleResultOf : Option Document → SingleResult
  | none => ⟨some .ErrNoDocuments, fun v => (v, none)⟩
  | some d => ⟨none, fun _ => (d.toEmployee, none)⟩

/-- Find-one-and-update on the model collection: the first document matching
the filter is updated in place and returned as it was before. -/
def Store.FindOneAndUpdate (filter update : D) (s : Store) : SingleResult × Store :=
  (singleResultOf (s.docs.find? (Document.matches filter)),
    ⟨updateFirst (Document.matches filter) (Document.applyUpdate update) s.docs, s.counter, by
      have hset : ∀ (fields : D) (d : Document), (fields.foldl Document.setField d)._id = d._id := by
        intro fields
        induction fields with
        | nil => intro d; rfl
        | cons e es ih =>
          intro d
          rw [List.foldl_cons, ih]
          unfold Document.setField
          split <;> first | rfl | (split <;> rfl)
      have hupd : ∀ (u : D) (d : Document), (Document.applyUpdate u d)._id = d._id := by
        intro u
        unfold Document.applyUpdate
        induction u with
        | nil => intro d; rfl
        | cons op ops ih =>
          intro d
          rw [List.foldl_cons, ih]
          split
          · split
            · exact hset _ _
            · rfl
          · rfl
      have hmap : ∀ l : List Document,
          (updateFirst (Document.matches filter) (Document.applyUpdate update) l).map Document._id
            = l.map Document._id := by
        intro l
        induction l with
        | nil => rfl
        | cons d ds ih =>
          unfold updateFirst
          split
          · simp [hupd]
          · simp [ih]
      rw [hmap]
      exact s.unique⟩)

/-- Insert-one on the model collection: a document without `_id` gets the next
generated identifier and is appended; an identifier already stored is a
duplicate-key write error.  The model keeps `ObjectID` keys only and refuses a
document that brings a string `_id`. -/
def Store.InsertOne (document : Employee) (s : Store) : Except GoError InsertOneResult × Store :=
  if document.Id ≠ "" then
    (.error (.other "model collection: _id must be an ObjectID"), s)
  else if h : NewObjectID s.counter ∈ s.docs.map Document._id then
    (.error (.other "E11000 duplicate key error"), ⟨s.docs, s.counter + 1, s.unique⟩)
  else
    (.ok ⟨.objectID (NewObjectID s.counter)⟩,
      ⟨s.docs ++ [⟨NewObjectID s.counter, document.Name, document.Age, document.Salary⟩],
        s.counter + 1, by
          rw [List.map_append, List.nodup_append]
          refine ⟨s.unique, by simp, ?_⟩
          intro a ha hb
          simp only [List.map_cons, List.map_nil, List.mem_singleton] at hb
          exact h (hb ▸ ha)⟩)

/-- Find-one on the model collection. -/
def Store.FindOne (filter : D) (s : Store) : SingleResult × Store :=
  (singleResultOf (s.docs.find? (Document.matches filter)), s)

/-- Find on the model collection: a cursor over every document matching the
filter, in stored order. -/
def Store.Find (filter : D) (s : Store) : Except GoError Cursor × Store :=
  (.ok ⟨(s.docs.filter (Document.matches filter)).map Document.toEmployee, none⟩, s)

/-- The model collection. -/
def Store.collection : Collection Store where
  DeleteOne := Store.DeleteOne
  FindOneAndUpdate := Store.FindOneAndUpdate
  InsertOne := Store.InsertOne
  FindOne := Store.FindOne
  Find := Store.Find

/-! ## Sample values -/

/-- A well-formed path identifier. -/
def sampleId : String := "5f1d7f3e8b0c4a2d9c6e1f00"

/-- The identifier `sampleId` parses to. -/
def sampleOID : ObjectID :=
  ⟨[0x5f, 0x1d, 0x7f, 0x3e, 0x8b, 0x0c, 0x4a, 0x2d, 0x9c, 0x6e, 0x1f, 0x00], rfl⟩

/-- The employee of the body `{"name":"Ana","age":30,"salary":5000}`; the bits
are those of `5000.0`. -/
def ana : Employee := ⟨"", "Ana", 30, ⟨0x40B3880000000000⟩⟩

/-- A store holding one document, keyed by `sampleOID`. -/
def sampleStore : Store := ⟨[⟨sampleOID, "Ana", 30, ⟨0x40B3880000000000⟩⟩], 1, by simp⟩

/-- The employee an XML or form body with the salary `Inf` parses to; the bits
are those of positive infinity. -/
def anaInf : Employee := ⟨"", "Ana", 30, ⟨0x7FF0000000000000⟩⟩

/-- A store holding one document whose salary is a NaN. -/
def nanStore : Store := ⟨[⟨sampleOID, "Ana", 30, ⟨0x7FF8000000000000⟩⟩], 1, by simp⟩

/-- The model collection with a `FindOne` that fails, as when the deadline of
the shared context passes after the insert. -/
def failingFindOne : Collection Store :=
  { Store.collection with
    FindOne := fun _ s => (⟨some (.other "context deadline exceeded"), fun v => (v, none)⟩, s) }

/-! ## Hexadecimal identifiers: what parses, and the round trip -/

theorem utf8Size_ascii (c : Char) (h : c.toNat ≤ 127) : c.utf8Size = 1 := by
  unfold Char.utf8Size
  have hle : c.val ≤ UInt32.ofNatCore 127 (by decide) := by
    show c.val.toNat ≤ 127
    exact h
  exact if_pos hle

theorem fromHexChar_some (c : Char) (n : Nat) (h : fromHexChar c = some n) :
    n < 16 ∧ c.toNat ≤ 127 := by
  unfold fromHexChar at h
  simp only at h
  split at h
  · injection h with h; omega
  · split at h
    · injection h with h; omega
    · split at h
      · injection h with h; omega
      · cases h

theorem fromHexChar_hexDigit (n : Nat) (h : n < 16) : fromHexChar (hexDigit n) = some n := by
  interval_cases n <;> rfl

theorem isHexChar_iff (c : Char) : isHexChar c = true ↔ ∃ n, fromHexChar c = some n := by
  unfold isHexChar
  cases fromHexChar c <;> simp

theorem utf8ByteSize_go_hex (cs : List Char) (h : ∀ c ∈ cs, isHexChar c = true) :
    String.utf8ByteSize.go cs = cs.length := by
  induction cs with
  | nil => rfl
  | cons c cs ih =>
    obtain ⟨n, hn⟩ := (isHexChar_iff c).1 (h c (List.mem_cons_self c cs))
    have hc := utf8Size_ascii c (fromHexChar_some c n hn).2
    have ih := ih (fun d hd => h d (List.mem_cons_of_mem c hd))
    simp only [String.utf8ByteSize.go, List.length_cons, ih, hc]

theorem pairs_induction {P : List Char → Prop} (h0 : P []) (h1 : ∀ p, P [p])
    (h2 : ∀ p q rest, P rest → P (p :: q :: rest)) : ∀ cs, P cs := by
  have both : ∀ cs, P cs ∧ ∀ c, P (c :: cs) := by
    intro cs
    induction cs with
    | nil => exact ⟨h0, h1⟩
    | cons d ds ih => exact ⟨ih.2 d, fun c => h2 c d ds ih.1⟩
  exact fun cs => (both cs).1

theorem hexDecode_ok (cs : List Char) :
    ∀ bs, hexDecode cs = .ok bs → (∀ c ∈ cs, isHexChar c = true) ∧ cs.length = 2 * bs.length := by
  induction cs using pairs_induction with
  | h0 =>
    intro bs h
    simp only [hexDecode, Except.ok.injEq] at h
    subst h
    simp
  | h1 p =>
    intro bs h
    simp only [hexDecode] at h
    split at h <;> cases h
  | h2 p q rest ih =>
    intro bs h
    simp only [hexDecode] at h
    split at h
    · cases h
    · rename_i a ha
      split at h
      · cases h
      · rename_i b hb
        split at h
        · cases h
        · rename_i bs1 hbs
          simp only [Except.ok.injEq] at h
          subst h
          obtain ⟨hall, hlen⟩ := ih bs1 hbs
          refine ⟨?_, by simp only [List.length_cons, hlen]; omega⟩
          intro c hc
          simp only [List.mem_cons] at hc
          rcases hc with rfl | rfl | hc
          · exact (isHexChar_iff _).2 ⟨a, ha⟩
          · exact (isHexChar_iff _).2 ⟨b, hb⟩
          · exact hall c hc

theorem hexDecode_of_hex (cs : List Char) :
    (∀ c ∈ cs, isHexChar c = true) → cs.length % 2 = 0 → ∃ bs, hexDecode cs = .ok bs := by
  induction cs using pairs_induction with
  | h0 => intro _ _; exact ⟨[], rfl⟩
  | h1 p => intro _ h; simp at h
  | h2 p q rest ih =>
    intro hall hlen
    obtain ⟨a, ha⟩ := (isHexChar_iff p).1 (hall p (by simp))
    obtain ⟨b, hb⟩ := (isHexChar_iff q).1 (hall q (by simp))
    obtain ⟨bs, hbs⟩ := ih (fun c hc => hall c (by simp [hc]))
      (by simp only [List.length_cons] at hlen; omega)
    exact ⟨Fin.ofNat (a * 16 + b) :: bs, by simp only [hexDecode, ha, hb, hbs]⟩

theorem hexDecode_hexEncode (bs : List (Fin 256)) : hexDecode (hexEncode bs) = .ok bs := by
  induction bs with
  | nil => rfl
  | cons b bs ih =>
    have h1 := fromHexChar_hexDigit (b.val / 16) (by omega)
    have h2 := fromHexChar_hexDigit (b.val % 16) (by omega)
    have hb : (Fin.ofNat (b.val / 16 * 16 + b.val % 16) : Fin 256) = b := by
      apply Fin.ext
      show (b.val / 16 * 16 + b.val % 16) % 256 = b.val
      omega
    simp only [hexEncode, hexDecode, h1, h2, ih, hb]

theorem hexEncode_hex (bs : List (Fin 256)) : ∀ c ∈ hexEncode bs, isHexChar c = true := by
  induction bs with
  | nil => intro c hc; cases hc
  | cons b bs ih =>
    intro c hc
    simp only [hexEncode, List.mem_cons] at hc
    rcases hc with rfl | rfl | hc
    · exact (isHexChar_iff _).2 ⟨_, fromHexChar_hexDigit (b.val / 16) (by omega)⟩
    · exact (isHexChar_iff _).2 ⟨_, fromHexChar_hexDigit (b.val % 16) (by omega)⟩
    · exact ih c hc

theorem hexEncode_length (bs : List (Fin 256)) : (hexEncode bs).length = 2 * bs.length := by
  induction bs with
  | nil => rfl
  | cons b bs ih => simp only [hexEncode, List.length_cons, ih]; omega

theorem copy12_eq (bs : List (Fin 256)) (h : bs.length = 12) : copy12 bs = ⟨bs, h⟩ := by
  apply Subtype.ext
  show (bs ++ List.replicate 12 0).take 12 = bs
  rw [← h]
  exact List.take_left' rfl

/-- The identifier parser accepts exactly the strings of 24 hexadecimal
characters. -/
theorem ObjectIDFromHex_ok_iff (s : String) :
    (∃ oid, ObjectIDFromHex s = .ok oid) ↔
      s.length = 24 ∧ ∀ c ∈ s.data, isHexChar c = true := by
  constructor
  · rintro ⟨oid, h⟩
    unfold ObjectIDFromHex at h
    split at h
    · cases h
    · rename_i hsize
      split at h
      · cases h
      · rename_i b hb
        obtain ⟨hall, _⟩ := hexDecode_ok s.data b hb
        refine ⟨?_, hall⟩
        have hgo := utf8ByteSize_go_hex s.data hall
        have hsz : s.utf8ByteSize = 24 := not_not.1 hsize
        show s.data.length = 24
        rw [← hgo]
        exact hsz
  · rintro ⟨hlen, hall⟩
    have hlen2 : s.data.length = 24 := hlen
    have hsz : s.utf8ByteSize = 24 := by
      show String.utf8ByteSize.go s.data = 24
      rw [utf8ByteSize_go_hex s.data hall, hlen2]
    obtain ⟨bs, hbs⟩ := hexDecode_of_hex s.data hall (by rw [hlen2])
    refine ⟨copy12 bs, ?_⟩
    unfold ObjectIDFromHex
    rw [if_neg (not_not.2 hsz), hbs]

/-- Parsing the hexadecimal form of an identifier gives the identifier back. -/
theorem ObjectIDFromHex_Hex (oid : ObjectID) : ObjectIDFromHex oid.Hex = .ok oid := by
  have hsz : (ObjectID.Hex oid).utf8ByteSize = 24 := by
    show String.utf8ByteSize.go (hexEncode oid.val) = 24
    rw [utf8ByteSize_go_hex _ (hexEncode_hex oid.val), hexEncode_length, oid.property]
  unfold ObjectIDFromHex
  rw [if_neg (not_not.2 hsz)]
  show (match hexDecode (hexEncode oid.val) with
    | .error e => Except.error e
    | .ok b => Except.ok (copy12 b)) = Except.ok oid
  rw [hexDecode_hexEncode]
  show Except.ok (copy12 oid.val) = Except.ok oid
  rw [copy12_eq oid.val oid.property]
  rfl

/-! ## JSON encoding of records -/

theorem MarshalJSON_finite (e : Employee) (h : e.Salary.isFinite = true) :
    e.MarshalJSON = .ok e.toJSON := by
  have hnot : ¬ ((e.Salary.IsInf || e.Salary.IsNaN) = true) := by
    unfold Float64.isFinite at h
    cases hv : (e.Salary.IsInf || e.Salary.IsNaN) with
    | false => exact Bool.false_ne_true
    | true => rw [hv] at h; cases h
  have hm : e.Salary.MarshalJSON = .ok (.float e.Salary) := by
    unfold Float64.MarshalJSON
    rw [if_neg hnot]
  unfold Employee.MarshalJSON Employee.toJSON
  rw [hm]

theorem MarshalJSON_nonfinite (e : Employee) (h : e.Salary.isFinite = false) :
    e.MarshalJSON = .error (.UnsupportedValueError e.Salary.formatNonFinite) := by
  have hyes : (e.Salary.IsInf || e.Salary.IsNaN) = true := by
    unfold Float64.isFinite at h
    cases hv : (e.Salary.IsInf || e.Salary.IsNaN) with
    | true => rfl
    | false => rw [hv] at h; cases h
  have hm : e.Salary.MarshalJSON = .error (.UnsupportedValueError e.Salary.formatNonFinite) := by
    unfold Float64.MarshalJSON
    rw [if_pos hyes]
  unfold Employee.MarshalJSON
  rw [hm]

theorem marshalEmployees_finite (es : List Employee)
    (h : ∀ e ∈ es, e.Salary.isFinite = true) :
    marshalEmployees es = .ok (es.map Employee.toJSON) := by
  induction es with
  | nil => rfl
  | cons e es ih =>
    have he := MarshalJSON_finite e (h e (List.mem_cons_self e es))
    have ih := ih (fun d hd => h d (List.mem_cons_of_mem e hd))
    simp only [marshalEmployees, he, ih, List.map_cons]

theorem marshalEmployees_nonfinite (es : List Employee)
    (h : ∃ e ∈ es, e.Salary.isFinite = false) :
    ∃ e ∈ es, e.Salary.isFinite = false ∧
      marshalEmployees es = .error (.UnsupportedValueError e.Salary.formatNonFinite) := by
  induction es with
  | nil =>
    obtain ⟨e, he, _⟩ := h
    cases he
  | cons d ds ih =>
    cases hd : d.Salary.isFinite with
    | false =>
      refine ⟨d, List.mem_cons_self d ds, hd, ?_⟩
      simp only [marshalEmployees, MarshalJSON_nonfinite d hd]
    | true =>
      obtain ⟨e, he, hfin⟩ := h
      have hrest : ∃ e ∈ ds, e.Salary.isFinite = false := by
        rcases List.mem_cons.1 he with rfl | hmem
        · rw [hd] at hfin
          cases hfin
        · exact ⟨e, hmem, hfin⟩
      obtain ⟨e1, he1, hfin1, herr⟩ := ih hrest
      refine ⟨e1, List.mem_cons_of_mem d he1, hfin1, ?_⟩
      simp only [marshalEmployees, MarshalJSON_finite d hd, herr]

theorem toJSON_injective (a b : Employee) (h : a.toJSON = b.toJSON) : a = b := by
  cases a with
  | mk ia na aa sa =>
    cases b with
    | mk ib nb ab sb =>
      unfold Employee.toJSON at h
      simp only at h
      by_cases ha : ia = "" <;> by_cases hb : ib = "" <;> simp [ha, hb] at h
      · obtain ⟨h1, h2, h3⟩ := h
        subst ha hb h1 h2 h3
        rfl
      · obtain ⟨h0, h1, h2, h3⟩ := h
        subst h0 h1 h2 h3
        rfl

/-! ## The handlers' responses -/

theorem sampleId_parses : ObjectIDFromHex sampleId = .ok sampleOID := rfl

/-- C2: when the path id is not exactly 24 hexadecimal characters, `editEmployee`
and `deleteEmployee` answer 400 with the text of the identifier error, leave the
database state as it was and issue no call on the collection, whatever the body
is; in `editEmployee` the answer is the identifier's also when the body does not
parse. -/
theorem malformed_id_is_400_without_database_call {σ : Type} (coll : Collection σ) (ctx : Ctx)
    (db : σ) (h : ¬ (ctx.id.length = 24 ∧ ∀ c ∈ ctx.id.data, isHexChar c = true)) :
    ∃ err, ObjectIDFromHex ctx.id = .error err ∧
      editEmployee coll ctx db = (SendString 400 err.Error, db) ∧
      deleteEmployee coll ctx db = (SendString 400 err.Error, db) ∧
      (editEmployee coll ctx db).1.status = 400 ∧
      (deleteEmployee coll ctx db).1.status = 400 ∧
      callsOf editEmployee coll ctx db = [] ∧
      callsOf deleteEmployee coll ctx db = [] := by
  cases hp : ObjectIDFromHex ctx.id with
  | ok oid => exact absurd ((ObjectIDFromHex_ok_iff ctx.id).1 ⟨oid, hp⟩) h
  | error err =>
    refine ⟨err, rfl, ?_, ?_, ?_, ?_, ?_, ?_⟩ <;>
      simp [editEmployee, deleteEmployee, callsOf, hp, SendString]

theorem malformed_id_is_400_without_database_call_witness :
    ¬ (("xyz" : String).length = 24 ∧ ∀ c ∈ ("xyz" : String).data, isHexChar c = true) ∧
      (editEmployee Store.collection ⟨"xyz", .error (.other "unexpected end of JSON input")⟩
        sampleStore).1.status = 400 ∧
      callsOf deleteEmployee Store.collection ⟨"xyz", .ok ana⟩ sampleStore = [] := by
  have hbad : ¬ (("xyz" : String).length = 24 ∧
      ∀ c ∈ ("xyz" : String).data, isHexChar c = true) := by decide
  obtain ⟨_, _, _, _, h1, _, _, _⟩ := malformed_id_is_400_without_database_call
    Store.collection ⟨"xyz", .error (.other "unexpected end of JSON input")⟩ sampleStore hbad
  obtain ⟨_, _, _, _, _, _, _, h2⟩ := malformed_id_is_400_without_database_call
    Store.collection ⟨"xyz", .ok ana⟩ sampleStore hbad
  exact ⟨hbad, h1, h2⟩

/-- C3: for a valid path id the response of `deleteEmployee` is decided by the
result of `DeleteOne`: an error gives 500 with the error text, a success with
count zero gives 404, a success with count at least one gives 200 with the JSON
string "record deleted"; the status is 404 exactly when the call succeeded with a
count below one, which for a count that is not negative is the count zero. -/
theorem deleteEmployee_status_by_driver_result {σ : Type} (coll : Collection σ) (ctx : Ctx)
    (db : σ) (oid : ObjectID) (h : ObjectIDFromHex ctx.id = .ok oid) :
    (∀ err, (coll.DeleteOne [("_id", .objectID oid)] db).1 = .error err →
      (deleteEmployee coll ctx db).1 = SendString 500 err.Error ∧
      (deleteEmployee coll ctx db).1.status = 500) ∧
    (∀ res, (coll.DeleteOne [("_id", .objectID oid)] db).1 = .ok res → res.DeletedCount = 0 →
      (deleteEmployee coll ctx db).1 = SendStatus 404 ∧
      (deleteEmployee coll ctx db).1.status = 404) ∧
    (∀ res, (coll.DeleteOne [("_id", .objectID oid)] db).1 = .ok res → 1 ≤ res.DeletedCount →
      (deleteEmployee coll ctx db).1 = ⟨200, .json (.str "record deleted")⟩ ∧
      (deleteEmployee coll ctx db).1.status = 200) ∧
    ((deleteEmployee coll ctx db).1.status = 404 ↔
      ∃ res, (coll.DeleteOne [("_id", .objectID oid)] db).1 = .ok res ∧ res.DeletedCount < 1) ∧
    (∀ res, (coll.DeleteOne [("_id", .objectID oid)] db).1 = .ok res → 0 ≤ res.DeletedCount →
      ((deleteEmployee coll ctx db).1.status = 404 ↔ res.DeletedCount = 0)) := by
  rcases hr : coll.DeleteOne [("_id", .objectID oid)] db with ⟨err | res, db1⟩
  · refine ⟨?_, ?_, ?_, ?_, ?_⟩ <;>
      simp [deleteEmployee, h, hr, SendString]
  · by_cases hc : res.DeletedCount < 1
    · refine ⟨?_, ?_, ?_, ?_, ?_⟩
      · simp
      · intro res1 h1 _
        simp [deleteEmployee, h, hr, hc, SendStatus]
      · intro res1 h1 h2
        simp only [Except.ok.injEq] at h1
        subst h1
        omega
      · simp [deleteEmployee, h, hr, hc, SendStatus]
      · intro res1 h1 h2
        simp only [Except.ok.injEq] at h1
        subst h1
        simp [deleteEmployee, h, hr, hc, SendStatus]
        omega
    · refine ⟨?_, ?_, ?_, ?_, ?_⟩
      · simp
      · intro res1 h1 h2
        simp only [Except.ok.injEq] at h1
        subst h1
        omega
      · intro res1 h1 _
        simp [deleteEmployee, h, hr, hc, JSON, Marshal]
      · simp [deleteEmployee, h, hr, hc, JSON, Marshal]
      · intro res1 h1 h2
        simp only [Except.ok.injEq] at h1
        subst h1
        simp [deleteEmployee, h, hr, hc, JSON, Marshal]
        omega

theorem deleteEmployee_status_by_driver_result_witness :
    ObjectIDFromHex sampleId = .ok sampleOID ∧
      ((deleteEmployee Store.collection ⟨sampleId, .ok ana⟩ Store.empty).1.status = 404 ↔
        ∃ res, (Store.collection.DeleteOne [("_id", .objectID sampleOID)] Store.empty).1 = .ok res ∧
          res.DeletedCount < 1) :=
  ⟨sampleId_parses,
    (deleteEmployee_status_by_driver_result Store.collection ⟨sampleId, .ok ana⟩ Store.empty
      sampleOID sampleId_parses).2.2.2.1⟩

/-- C4 (amended): for a valid path id and a body that parsed, an update that
reports the no-documents error is answered 400, and one that reports any other
error is answered 500 with the error text; an update that reports no error is
answered 200 when the salary of the body is finite, and 500 with the text of the
JSON encoder's error when it is an infinity or a NaN.  The status is 400 exactly
when the error is the no-documents error, and 500 exactly when the update
reports another error or reports none and the salary is not finite. -/
theorem editEmployee_update_failure_statuses {σ : Type} (coll : Collection σ) (ctx : Ctx)
    (db : σ) (oid : ObjectID) (employee : Employee)
    (hid : ObjectIDFromHex ctx.id = .ok oid) (hbody : ctx.BodyParser = .ok employee) :
    ((coll.FindOneAndUpdate [("_id", .objectID oid)]
        [("$set", .document [("name", .string employee.Name), ("age", .int64 employee.Age),
          ("salary", .double employee.Salary)])] db).1.Err = some .ErrNoDocuments →
      (editEmployee coll ctx db).1 = SendStatus 400) ∧
    (∀ err, (coll.FindOneAndUpdate [("_id", .objectID oid)]
        [("$set", .document [("name", .string employee.Name), ("age", .int64 employee.Age),
          ("salary", .double employee.Salary)])] db).1.Err = some err → err ≠ .ErrNoDocuments →
      (editEmployee coll ctx db).1 = SendString 500 err.Error) ∧
    ((coll.FindOneAndUpdate [("_id", .objectID oid)]
        [("$set", .document [("name", .string employee.Name), ("age", .int64 employee.Age),
          ("salary", .double employee.Salary)])] db).1.Err = none → employee.Salary.isFinite = true →
      (editEmployee coll ctx db).1.status = 200) ∧
    ((coll.FindOneAndUpdate [("_id", .objectID oid)]
        [("$set", .document [("name", .string employee.Name), ("age", .int64 employee.Age),
          ("salary", .double employee.Salary)])] db).1.Err = none → employee.Salary.isFinite = false →
      (editEmployee coll ctx db).1 =
        SendString 500 ("json: unsupported value: " ++ employee.Salary.formatNonFinite)) ∧
    ((editEmployee coll ctx db).1.status = 400 ↔
      (coll.FindOneAndUpdate [("_id", .objectID oid)]
        [("$set", .document [("name", .string employee.Name), ("age", .int64 employee.Age),
          ("salary", .double employee.Salary)])] db).1.Err = some .ErrNoDocuments) ∧
    ((editEmployee coll ctx db).1.status = 500 ↔
      (∃ err, (coll.FindOneAndUpdate [("_id", .objectID oid)]
        [("$set", .document [("name", .string employee.Name), ("age", .int64 employee.Age),
          ("salary", .double employee.Salary)])] db).1.Err = some err ∧ err ≠ .ErrNoDocuments) ∨
        ((coll.FindOneAndUpdate [("_id", .objectID oid)]
        [("$set", .document [("name", .string employee.Name), ("age", .int64 employee.Age),
          ("salary", .double employee.Salary)])] db).1.Err = none ∧ employee.Salary.isFinite = false)) := by
  rcases hr : coll.FindOneAndUpdate [("_id", .objectID oid)]
        [("$set", .document [("name", .string employee.Name), ("age", .int64 employee.Age),
          ("salary", .double employee.Salary)])] db with ⟨res, db1⟩
  cases he : res.Err with
  | none =>
    have hrun : (editEmployee coll ctx db).1 =
        JSON 200 (.employee ⟨ctx.id, employee.Name, employee.Age, employee.Salary⟩) := by
      simp [editEmployee, hid, hbody, hr, he]
    cases hfin : employee.Salary.isFinite with
    | true =>
      have hm := MarshalJSON_finite ⟨ctx.id, employee.Name, employee.Age, employee.Salary⟩ hfin
      have hresp : (editEmployee coll ctx db).1 =
          ⟨200, .json (Employee.toJSON ⟨ctx.id, employee.Name, employee.Age, employee.Salary⟩)⟩ := by
        rw [hrun]
        simp only [JSON, Marshal, hm]
      refine ⟨?_, ?_, ?_, ?_, ?_, ?_⟩ <;> simp [hresp]
    | false =>
      have hm := MarshalJSON_nonfinite ⟨ctx.id, employee.Name, employee.Age, employee.Salary⟩ hfin
      have hresp : (editEmployee coll ctx db).1 =
          SendString 500 ("json: unsupported value: " ++ employee.Salary.formatNonFinite) := by
        rw [hrun]
        simp only [JSON, Marshal, hm, DefaultErrorHandler, GoError.Error, SendString]
      refine ⟨?_, ?_, ?_, ?_, ?_, ?_⟩ <;> simp [hresp, SendString]
  | some err =>
    by_cases hno : err = .ErrNoDocuments
    · refine ⟨?_, ?_, ?_, ?_, ?_, ?_⟩ <;>
        simp [editEmployee, hid, hbody, hr, he, hno, SendStatus]
    · refine ⟨?_, ?_, ?_, ?_, ?_, ?_⟩ <;>
        simp [editEmployee, hid, hbody, hr, he, hno, SendString]

theorem editEmployee_update_failure_statuses_witness :
    ObjectIDFromHex sampleId = .ok sampleOID ∧
      ((editEmployee Store.collection ⟨sampleId, .ok ana⟩ Store.empty).1.status = 400 ↔
        (Store.collection.FindOneAndUpdate [("_id", .objectID sampleOID)]
          [("$set", .document [("name", .string ana.Name), ("age", .int64 ana.Age),
            ("salary", .double ana.Salary)])] Store.empty).1.Err = some .ErrNoDocuments) :=
  ⟨sampleId_parses,
    (editEmployee_update_failure_statuses Store.collection ⟨sampleId, .ok ana⟩ Store.empty
      sampleOID ana sampleId_parses rfl).2.2.2.2.1⟩

/-- C4 (as stated, refuted): with a valid path id, a parsed body whose salary is
positive infinity and an update that reports no error, `editEmployee` answers 500
with the text of the JSON encoder's error: a failure response that is neither the
400 of the no-documents error nor the 500 of another update error. -/
theorem editEmployee_third_failure_response :
    ObjectIDFromHex sampleId = .ok sampleOID ∧
      (Store.collection.FindOneAndUpdate [("_id", .objectID sampleOID)]
        [("$set", .document [("name", .string anaInf.Name), ("age", .int64 anaInf.Age),
          ("salary", .double anaInf.Salary)])] sampleStore).1.Err = none ∧
      (editEmployee Store.collection ⟨sampleId, .ok anaInf⟩ sampleStore).1 =
        SendString 500 "json: unsupported value: +Inf" ∧
      ¬ ((editEmployee Store.collection ⟨sampleId, .ok anaInf⟩ sampleStore).1.status = 500 →
        ∃ err, (Store.collection.FindOneAndUpdate [("_id", .objectID sampleOID)]
          [("$set", .document [("name", .string anaInf.Name), ("age", .int64 anaInf.Age),
            ("salary", .double anaInf.Salary)])] sampleStore).1.Err = some err) := by
  refine ⟨rfl, rfl, rfl, ?_⟩
  intro h
  obtain ⟨err, herr⟩ := h rfl
  cases herr

/-- C5 (amended): for a valid path id, a body that parsed and an update that
reports no error: when the salary of the body is finite, `editEmployee` answers
200 with the JSON of a record whose id is the path id string and whose name, age
and salary are those of the body, the id of the body and the document the update
returned playing no part; when the salary is an infinity or a NaN, it answers 500
with the text of the JSON encoder's error. -/
theorem editEmployee_success_echoes_path_id {σ : Type} (coll : Collection σ) (ctx : Ctx)
    (db : σ) (oid : ObjectID) (employee : Employee)
    (hid : ObjectIDFromHex ctx.id = .ok oid) (hbody : ctx.BodyParser = .ok employee)
    (hok : (coll.FindOneAndUpdate [("_id", .objectID oid)]
        [("$set", .document [("name", .string employee.Name), ("age", .int64 employee.Age),
          ("salary", .double employee.Salary)])] db).1.Err = none) :
    (employee.Salary.isFinite = true →
      (editEmployee coll ctx db).1 =
        ⟨200, .json (Employee.toJSON ⟨ctx.id, employee.Name, employee.Age, employee.Salary⟩)⟩ ∧
      (editEmployee coll ctx db).1.status = 200 ∧
      (editEmployee coll ctx db).1.body =
        .json (.obj [("id", .str ctx.id), ("name", .str employee.Name),
          ("age", .int employee.Age), ("salary", .float employee.Salary)])) ∧
    (employee.Salary.isFinite = false →
      (editEmployee coll ctx db).1 =
        SendString 500 ("json: unsupported value: " ++ employee.Salary.formatNonFinite)) := by
  have hne : ctx.id ≠ "" := by
    intro hempty
    rw [hempty] at hid
    cases hid
  rcases hr : coll.FindOneAndUpdate [("_id", .objectID oid)]
        [("$set", .document [("name", .string employee.Name), ("age", .int64 employee.Age),
          ("salary", .double employee.Salary)])] db with ⟨res, db1⟩
  rw [hr] at hok
  have hrun : (editEmployee coll ctx db).1 =
      JSON 200 (.employee ⟨ctx.id, employee.Name, employee.Age, employee.Salary⟩) := by
    simp [editEmployee, hid, hbody, hr, hok]
  constructor
  · intro hfin
    have hm := MarshalJSON_finite ⟨ctx.id, employee.Name, employee.Age, employee.Salary⟩ hfin
    have hresp : (editEmployee coll ctx db).1 =
        ⟨200, .json (Employee.toJSON ⟨ctx.id, employee.Name, employee.Age, employee.Salary⟩)⟩ := by
      rw [hrun]
      simp only [JSON, Marshal, hm]
    refine ⟨hresp, by rw [hresp], ?_⟩
    rw [hresp]
    simp [Employee.toJSON, hne]
  · intro hfin
    have hm := MarshalJSON_nonfinite ⟨ctx.id, employee.Name, employee.Age, employee.Salary⟩ hfin
    rw [hrun]
    simp only [JSON, Marshal, hm, DefaultErrorHandler, GoError.Error, SendString]

theorem editEmployee_success_echoes_path_id_witness :
    (editEmployee Store.collection ⟨sampleId, .ok { ana with Id := "ffffffffffffffffffffffff" }⟩
        sampleStore).1.body =
      .json (.obj [("id", .str sampleId), ("name", .str "Ana"),
        ("age", .int 30), ("salary", .float ⟨0x40B3880000000000⟩)]) :=
  ((editEmployee_success_echoes_path_id Store.collection
    ⟨sampleId, .ok { ana with Id := "ffffffffffffffffffffffff" }⟩ sampleStore sampleOID
    { ana with Id := "ffffffffffffffffffffffff" } sampleId_parses rfl rfl).1 rfl).2.2

/-- C5 (as stated, refuted): with a valid path id, a parsed body whose salary is
positive infinity and an update that reports no error, the status of
`editEmployee` is 500, not 200, and the body is the text of the encoder's error,
not a record. -/
theorem editEmployee_nonfinite_salary_is_not_200 :
    ObjectIDFromHex sampleId = .ok sampleOID ∧
      (Store.collection.FindOneAndUpdate [("_id", .objectID sampleOID)]
        [("$set", .document [("name", .string anaInf.Name), ("age", .int64 anaInf.Age),
          ("salary", .double anaInf.Salary)])] sampleStore).1.Err = none ∧
      (editEmployee Store.collection ⟨sampleId, .ok anaInf⟩ sampleStore).1.status = 500 ∧
      (editEmployee Store.collection ⟨sampleId, .ok anaInf⟩ sampleStore).1.status ≠ 200 ∧
      (editEmployee Store.collection ⟨sampleId, .ok anaInf⟩ sampleStore).1.body =
        .text "json: unsupported value: +Inf" := by
  refine ⟨rfl, rfl, rfl, ?_, rfl⟩
  have h500 : (editEmployee Store.collection ⟨sampleId, .ok anaInf⟩ sampleStore).1.status = 500 :=
    rfl
  rw [h500]
  decide

/-- C6: for a body that parsed, the first call of `createEmployee` is an insert
of the body's name, age and salary with the empty id, whose BSON encoding has the
three fields and no `_id`; two bodies that differ only in id lead to the same
insert and the same run of the handler. -/
theorem createEmployee_inserts_without_id {σ : Type} (coll : Collection σ) (ctx : Ctx)
    (db : σ) (employee : Employee) (hbody : ctx.BodyParser = .ok employee) :
    (callsOf createEmployee coll ctx db).head? =
        some (.InsertOne ⟨"", employee.Name, employee.Age, employee.Salary⟩) ∧
      Employee.toBSON ⟨"", employee.Name, employee.Age, employee.Salary⟩ =
        [("name", .string employee.Name), ("age", .int64 employee.Age),
          ("salary", .double employee.Salary)] ∧
      (∀ e ∈ Employee.toBSON ⟨"", employee.Name, employee.Age, employee.Salary⟩, e.1 ≠ "_id") ∧
      (∀ (ctx2 : Ctx) (employee2 : Employee), ctx2.BodyParser = .ok employee2 →
        employee2.Name = employee.Name → employee2.Age = employee.Age →
        employee2.Salary = employee.Salary →
        createEmployee coll ctx2 db = createEmployee coll ctx db ∧
        callsOf createEmployee coll ctx2 db = callsOf createEmployee coll ctx db) := by
  refine ⟨?_, ?_, ?_, ?_⟩
  · unfold callsOf createEmployee
    simp only [hbody, recording]
    rcases hr : coll.InsertOne { employee with Id := "" } db with ⟨err | res, db1⟩ <;> simp
  · simp [Employee.toBSON]
  · intro e he
    simp only [Employee.toBSON, if_true, List.nil_append, List.mem_cons, List.mem_singleton,
      List.mem_nil_iff, or_false] at he
    rcases he with rfl | rfl | rfl <;> simp
  · intro ctx2 employee2 h2 hn ha hs
    have hsame : ({ employee2 with Id := "" } : Employee) = { employee with Id := "" } := by
      cases employee2; cases employee; simp_all
    constructor
    · unfold createEmployee
      simp only [hbody, h2, hsame]
    · unfold callsOf createEmployee
      simp only [hbody, h2, hsame]

theorem createEmployee_inserts_without_id_witness :
    (callsOf createEmployee Store.collection
        ⟨"", .ok { ana with Id := "ffffffffffffffffffffffff" }⟩ Store.empty).head? =
      some (.InsertOne ⟨"", "Ana", 30, ⟨0x40B3880000000000⟩⟩) :=
  (createEmployee_inserts_without_id Store.collection
    ⟨"", .ok { ana with Id := "ffffffffffffffffffffffff" }⟩ Store.empty
    { ana with Id := "ffffffffffffffffffffffff" } rfl).1

/-- C7 (amended): `getEmployees` answers 500 with the error text when the query
fails or the cursor read fails; otherwise, when every record read has a finite
salary, it answers 200 with the JSON array of the records read, and when a record
read has a salary that is an infinity or a NaN it answers 500 with the text of the
JSON encoder's error for the first such record; when no record is read the body is
the empty array, and the body is never JSON null. -/
theorem getEmployees_response (σ : Type) (coll : Collection σ) (ctx : Ctx) (db : σ) :
    (∀ err, (coll.Find [E.zero] db).1 = .error err →
      (getEmployees coll ctx db).1 = SendString 500 err.Error) ∧
    (∀ cursor err, (coll.Find [E.zero] db).1 = .ok cursor → cursor.err = some err →
      (getEmployees coll ctx db).1 = SendString 500 err.Error) ∧
    (∀ cursor, (coll.Find [E.zero] db).1 = .ok cursor → cursor.err = none →
      (∀ e ∈ cursor.read, e.Salary.isFinite = true) →
      (getEmployees coll ctx db).1 = ⟨200, .json (.arr (cursor.read.map Employee.toJSON))⟩ ∧
      (getEmployees coll ctx db).1.status = 200) ∧
    (∀ cursor, (coll.Find [E.zero] db).1 = .ok cursor → cursor.err = none →
      (∃ e ∈ cursor.read, e.Salary.isFinite = false) →
      ∃ e ∈ cursor.read, e.Salary.isFinite = false ∧
        (getEmployees coll ctx db).1 =
          SendString 500 ("json: unsupported value: " ++ e.Salary.formatNonFinite)) ∧
    (∀ cursor, (coll.Find [E.zero] db).1 = .ok cursor → cursor.err = none →
      cursor.read = [] → (getEmployees coll ctx db).1 = ⟨200, .json (.arr [])⟩) ∧
    (getEmployees coll ctx db).1.body ≠ .json .null := by
  rcases hr : coll.Find [E.zero] db with ⟨err | cursor, db1⟩
  · refine ⟨?_, ?_, ?_, ?_, ?_, ?_⟩ <;> simp [getEmployees, hr, SendString]
  · cases hc : cursor.err with
    | some err =>
      refine ⟨?_, ?_, ?_, ?_, ?_, ?_⟩
      · simp
      · intro cursor1 err1 h1 h2
        simp only [Except.ok.injEq] at h1
        subst h1
        rw [hc] at h2
        simp only [Option.some.injEq] at h2
        subst h2
        simp [getEmployees, hr, hc, Cursor.All, SendString]
      · intro cursor1 h1 h2
        simp only [Except.ok.injEq] at h1
        subst h1
        rw [hc] at h2
        cases h2
      · intro cursor1 h1 h2
        simp only [Except.ok.injEq] at h1
        subst h1
        rw [hc] at h2
        cases h2
      · intro cursor1 h1 h2
        simp only [Except.ok.injEq] at h1
        subst h1
        rw [hc] at h2
        cases h2
      · simp [getEmployees, hr, hc, Cursor.All, SendString]
    | none =>
      have hrun : (getEmployees coll ctx db).1 = JSON 200 (.employees (.mk cursor.read)) := by
        simp [getEmployees, hr, hc, Cursor.All, Slice.reslice]
      refine ⟨?_, ?_, ?_, ?_, ?_, ?_⟩
      · simp
      · intro cursor1 err h1 h2
        simp only [Except.ok.injEq] at h1
        subst h1
        rw [hc] at h2
        cases h2
      · intro cursor1 h1 _ hfin
        simp only [Except.ok.injEq] at h1
        subst h1
        have hm := marshalEmployees_finite cursor.read hfin
        have hresp : (getEmployees coll ctx db).1 =
            ⟨200, .json (.arr (cursor.read.map Employee.toJSON))⟩ := by
          rw [hrun]
          simp only [JSON, Marshal, hm]
        exact ⟨hresp, by rw [hresp]⟩
      · intro cursor1 h1 _ hbad
        simp only [Except.ok.injEq] at h1
        subst h1
        obtain ⟨e, he, hfin, hm⟩ := marshalEmployees_nonfinite cursor.read hbad
        refine ⟨e, he, hfin, ?_⟩
        rw [hrun]
        simp only [JSON, Marshal, hm, DefaultErrorHandler, GoError.Error, SendString]
      · intro cursor1 h1 _ hread
        simp only [Except.ok.injEq] at h1
        subst h1
        rw [hrun, hread]
        rfl
      · rw [hrun]
        rcases hm : marshalEmployees cursor.read with err | js <;>
          simp [JSON, Marshal, hm, DefaultErrorHandler]

theorem getEmployees_response_witness :
    (getEmployees Store.collection ⟨"", .ok ana⟩ sampleStore).1.status = 200 ∧
      (getEmployees Store.collection ⟨"", .ok ana⟩ Store.empty).1 = ⟨200, .json (.arr [])⟩ :=
  ⟨((getEmployees_response Store Store.collection ⟨"", .ok ana⟩ sampleStore).2.2.1
      ⟨[⟨sampleId, "Ana", 30, ⟨0x40B3880000000000⟩⟩], none⟩ rfl rfl (by decide)).2,
    (getEmployees_response Store Store.collection ⟨"", .ok ana⟩ Store.empty).2.2.2.2.1
      ⟨[], none⟩ rfl rfl rfl⟩

/-- C7 (as stated, refuted): on a store whose one document has a NaN salary the
query and the cursor read succeed, and `getEmployees` answers 500 with the text of
the JSON encoder's error, not 200 with an array. -/
theorem getEmployees_nonfinite_record_is_500 :
    (∃ cursor, (Store.collection.Find [E.zero] nanStore).1 = .ok cursor ∧ cursor.err = none) ∧
      (getEmployees Store.collection ⟨"", .ok ana⟩ nanStore).1 =
        SendString 500 "json: unsupported value: NaN" ∧
      (getEmployees Store.collection ⟨"", .ok ana⟩ nanStore).1.status ≠ 200 := by
  refine ⟨⟨_, rfl, rfl⟩, rfl, ?_⟩
  have h500 : (getEmployees Store.collection ⟨"", .ok ana⟩ nanStore).1.status = 500 := rfl
  rw [h500]
  decide

/-- C10 (what the code does): whatever the request and the collection, the one
call `getEmployees` issues is a `Find` whose filter is the literal `bson.D{{}}`,
a document of one element, the zero element with the empty key and the nil
value; the filter is not the document without elements. -/
theorem getEmployees_filter_has_one_element (σ : Type) (coll : Collection σ) (ctx : Ctx)
    (db : σ) :
    callsOf getEmployees coll ctx db = [.Find [("", .nil)]] ∧
      ([("", .nil)] : D).length = 1 ∧
      callsOf getEmployees coll ctx db ≠ [.Find []] := by
  have hcalls : callsOf getEmployees coll ctx db = [.Find [("", .nil)]] := by
    unfold callsOf getEmployees
    simp only [recording, E.zero]
    rcases hr : coll.Find [("", .nil)] db with ⟨err | cursor, db1⟩
    · simp
    · cases hc : cursor.err <;> simp [Cursor.All, hc]
  refine ⟨hcalls, rfl, ?_⟩
  rw [hcalls]
  simp

/-- C1 (what the code does): when the insert succeeds and the re-fetch reports an
error, `Decode` leaves the fresh record untouched and its error is dropped, so
`createEmployee` answers 201 with the zero record: no id, empty name, age 0 and
salary 0, whatever was submitted. -/
theorem createEmployee_refetch_failure_gives_zero_record {σ : Type} (coll : Collection σ)
    (ctx : Ctx) (db : σ) (employee : Employee) (res : InsertOneResult) (err : GoError)
    (hbody : ctx.BodyParser = .ok employee)
    (hins : (coll.InsertOne ⟨"", employee.Name, employee.Age, employee.Salary⟩ db).1 = .ok res)
    (hfind : (coll.FindOne [("_id", res.InsertedID)]
      (coll.InsertOne ⟨"", employee.Name, employee.Age, employee.Salary⟩ db).2).1.err = some err) :
    (createEmployee coll ctx db).1 =
      ⟨201, .json (.obj [("name", .str ""), ("age", .int 0), ("salary", .float ⟨0⟩)])⟩ := by
  unfold createEmployee
  simp only [hbody]
  rcases hr : coll.InsertOne ⟨"", employee.Name, employee.Age, employee.Salary⟩ db with
    ⟨e | res1, db1⟩
  · rw [hr] at hins
    cases hins
  · rw [hr] at hins hfind
    simp only [Except.ok.injEq] at hins
    subst hins
    simp only at hfind
    simp only [SingleResult.Decode, hfind]
    rfl

theorem createEmployee_refetch_failure_gives_zero_record_witness :
    (createEmployee failingFindOne ⟨"", .ok ana⟩ Store.empty).1 =
      ⟨201, .json (.obj [("name", .str ""), ("age", .int 0), ("salary", .float ⟨0⟩)])⟩ :=
  createEmployee_refetch_failure_gives_zero_record failingFindOne ⟨"", .ok ana⟩ Store.empty
    ana ⟨.objectID (NewObjectID 0)⟩ (.other "context deadline exceeded") rfl rfl rfl

/-! ## The handlers on the model collection -/

theorem matches_id (oid : ObjectID) :
    Document.matches [("_id", .objectID oid)] = fun d => decide (d._id = oid) := by
  funext d
  simp [Document.matches, Document.field, matchValue]

theorem matches_zero : Document.matches [E.zero] = fun _ => true := by
  funext d
  simp [Document.matches, Document.field, matchValue, E.zero]

theorem eraseP_id_eq_filter (oid : ObjectID) (l : List Document)
    (hnd : (l.map Document._id).Nodup) :
    l.eraseP (fun d => decide (d._id = oid)) = l.filter (fun d => decide (d._id ≠ oid)) := by
  induction l with
  | nil => rfl
  | cons d ds ih =>
    rw [List.map_cons, List.nodup_cons] at hnd
    by_cases hd : d._id = oid
    · have hrest : ∀ x ∈ ds, decide (x._id ≠ oid) = true := by
        intro x hx
        have hne : x._id ≠ oid := by
          intro hxo
          exact hnd.1 (List.mem_map.2 ⟨x, hx, hxo.trans hd.symm⟩)
        simpa using hne
      have hfil : ds.filter (fun d => decide (d._id ≠ oid)) = ds := List.filter_eq_self.2 hrest
      rw [List.eraseP_cons_of_pos (by simpa using hd), List.filter_cons_of_neg (by simpa using hd),
        hfil]
    · rw [List.eraseP_cons_of_neg (by simpa using hd), List.filter_cons_of_pos (by simpa using hd),
        ih hnd.2]

theorem updateFirst_id_eq_map (oid : ObjectID) (f : Document → Document) (l : List Document)
    (hnd : (l.map Document._id).Nodup) :
    updateFirst (fun d => decide (d._id = oid)) f l =
      l.map (fun d => if d._id = oid then f d else d) := by
  induction l with
  | nil => rfl
  | cons d ds ih =>
    rw [List.map_cons, List.nodup_cons] at hnd
    by_cases hd : d._id = oid
    · have hrest : ∀ x ∈ ds, (if x._id = oid then f x else x) = x := by
        intro x hx
        have hne : x._id ≠ oid := by
          intro hxo
          exact hnd.1 (List.mem_map.2 ⟨x, hx, hxo.trans hd.symm⟩)
        simp [hne]
      have hmap : ds.map (fun d => if d._id = oid then f d else d) = ds := by
        conv_rhs => rw [← List.map_id ds]
        exact List.map_congr_left hrest
      simp [updateFirst, hd, hmap]
    · simp [updateFirst, hd, ih hnd.2]

theorem applyUpdate_set (employee : Employee) (d : Document) :
    Document.applyUpdate [("$set", .document [("name", .string employee.Name),
      ("age", .int64 employee.Age), ("salary", .double employee.Salary)])] d =
      ⟨d._id, employee.Name, employee.Age, employee.Salary⟩ := by
  simp [Document.applyUpdate, Document.setField]

theorem store_ext (s t : Store) (hd : s.docs = t.docs) (hc : s.counter = t.counter) : s = t := by
  cases s
  cases t
  simp only at hd hc
  subst hd
  subst hc
  rfl

theorem deleteEmployee_store_docs (s : Store) (ctx : Ctx) (oid : ObjectID)
    (h : ObjectIDFromHex ctx.id = .ok oid) :
    (deleteEmployee Store.collection ctx s).2.docs =
        s.docs.filter (fun d => decide (d._id ≠ oid)) ∧
      (deleteEmployee Store.collection ctx s).2.counter = s.counter := by
  have hdocs := eraseP_id_eq_filter oid s.docs s.unique
  unfold deleteEmployee
  simp only [h, Store.collection, Store.DeleteOne, matches_id]
  split <;> exact ⟨hdocs, rfl⟩

theorem deleteEmployee_store_present (s : Store) (ctx : Ctx) (oid : ObjectID)
    (h : ObjectIDFromHex ctx.id = .ok oid) (hin : oid ∈ s.docs.map Document._id) :
    (deleteEmployee Store.collection ctx s).1 = ⟨200, .json (.str "record deleted")⟩ := by
  obtain ⟨d, hd, hdo⟩ := List.mem_map.1 hin
  have hlen := List.length_eraseP_of_mem (p := fun d => decide (d._id = oid)) hd (by simpa using hdo)
  have hpos : 0 < s.docs.length := List.length_pos_of_mem hd
  unfold deleteEmployee
  simp only [h, Store.collection, Store.DeleteOne, matches_id, hlen]
  rw [if_neg (by omega)]
  rfl

theorem deleteEmployee_store_absent (s : Store) (ctx : Ctx) (oid : ObjectID)
    (h : ObjectIDFromHex ctx.id = .ok oid) (hout : oid ∉ s.docs.map Document._id) :
    (deleteEmployee Store.collection ctx s).1 = SendStatus 404 := by
  have hnone : ∀ d ∈ s.docs, ¬ (decide (d._id = oid) = true) := by
    intro d hd hdo
    exact hout (List.mem_map.2 ⟨d, hd, by simpa using hdo⟩)
  have herase := List.eraseP_of_forall_not hnone
  unfold deleteEmployee
  simp only [h, Store.collection, Store.DeleteOne, matches_id, herase]
  rw [if_pos (by omega)]

theorem getEmployees_store (s : Store) (ctx : Ctx) :
    getEmployees Store.collection ctx s =
      (JSON 200 (.employees (.mk (s.docs.map Document.toEmployee))), s) := by
  unfold getEmployees
  simp [Store.collection, Store.Find, matches_zero, Cursor.All, Slice.reslice]

/-- C8: on the model collection, for a valid path id: when a document with that
identifier is stored, `deleteEmployee` answers 200 and the store is left with the
documents of every other identifier; a following `getEmployees` encodes exactly
those documents, so it answers 200 with their array when their salaries are
finite and 500 otherwise, and no record its body lists has the path id as its id
or an id that parses to the identifier; a second `deleteEmployee` on the same id
answers 404.  When no document with that identifier is stored, `deleteEmployee`
answers 404 and the store is unchanged. -/
theorem delete_then_list_on_model_store (s : Store) (ctx listCtx : Ctx) (oid : ObjectID)
    (h : ObjectIDFromHex ctx.id = .ok oid) :
    (oid ∈ s.docs.map Document._id →
      (deleteEmployee Store.collection ctx s).1 = ⟨200, .json (.str "record deleted")⟩ ∧
      (deleteEmployee Store.collection ctx s).1.status = 200 ∧
      (deleteEmployee Store.collection ctx s).2.docs =
        s.docs.filter (fun d => decide (d._id ≠ oid)) ∧
      (getEmployees Store.collection listCtx (deleteEmployee Store.collection ctx s).2).1 =
        JSON 200 (.employees (.mk ((deleteEmployee Store.collection ctx s).2.docs.map
          Document.toEmployee))) ∧
      ((∀ d ∈ (deleteEmployee Store.collection ctx s).2.docs, d.salary.isFinite = true) →
        (getEmployees Store.collection listCtx (deleteEmployee Store.collection ctx s).2).1 =
          ⟨200, .json (.arr (((deleteEmployee Store.collection ctx s).2.docs.map
            Document.toEmployee).map Employee.toJSON))⟩) ∧
      (∀ es : List Employee,
        (getEmployees Store.collection listCtx (deleteEmployee Store.collection ctx s).2).1.body =
          .json (.arr (es.map Employee.toJSON)) →
        ∀ e ∈ es, e.Id ≠ ctx.id ∧ ObjectIDFromHex e.Id ≠ .ok oid) ∧
      (∀ e ∈ (deleteEmployee Store.collection ctx s).2.docs.map Document.toEmployee,
        e.Id ≠ ctx.id ∧ ObjectIDFromHex e.Id ≠ .ok oid) ∧
      (deleteEmployee Store.collection ctx (deleteEmployee Store.collection ctx s).2).1 =
        SendStatus 404 ∧
      (deleteEmployee Store.collection ctx
        (deleteEmployee Store.collection ctx s).2).1.status = 404) ∧
    (oid ∉ s.docs.map Document._id →
      (deleteEmployee Store.collection ctx s).1 = SendStatus 404 ∧
      (deleteEmployee Store.collection ctx s).1.status = 404 ∧
      (deleteEmployee Store.collection ctx s).2 = s) := by
  obtain ⟨hdocs, hcounter⟩ := deleteEmployee_store_docs s ctx oid h
  have hgone : oid ∉ (deleteEmployee Store.collection ctx s).2.docs.map Document._id := by
    rw [hdocs]
    intro hmem
    obtain ⟨d, hd, hdo⟩ := List.mem_map.1 hmem
    have := (List.mem_filter.1 hd).2
    simp only [decide_eq_true_eq] at this
    exact this hdo
  have hothers : ∀ e ∈ (deleteEmployee Store.collection ctx s).2.docs.map Document.toEmployee,
      e.Id ≠ ctx.id ∧ ObjectIDFromHex e.Id ≠ .ok oid := by
    intro e he
    obtain ⟨d, hd, rfl⟩ := List.mem_map.1 he
    have hne : d._id ≠ oid := fun hdo => hgone (List.mem_map.2 ⟨d, hd, hdo⟩)
    have hparse : ObjectIDFromHex d.toEmployee.Id = .ok d._id := ObjectIDFromHex_Hex d._id
    constructor
    · intro hsame
      rw [hsame, h] at hparse
      exact hne (Except.ok.inj hparse).symm
    · rw [hparse]
      intro heq
      exact hne (Except.ok.inj heq)
  have hlist : (getEmployees Store.collection listCtx (deleteEmployee Store.collection ctx s).2).1 =
      JSON 200 (.employees (.mk ((deleteEmployee Store.collection ctx s).2.docs.map
        Document.toEmployee))) := by
    rw [getEmployees_store]
  have hlistFinite :
      (∀ e ∈ (deleteEmployee Store.collection ctx s).2.docs.map Document.toEmployee,
        e.Salary.isFinite = true) →
      (getEmployees Store.collection listCtx (deleteEmployee Store.collection ctx s).2).1 =
        ⟨200, .json (.arr (((deleteEmployee Store.collection ctx s).2.docs.map
          Document.toEmployee).map Employee.toJSON))⟩ := by
    intro hfin
    rw [hlist]
    simp only [JSON, Marshal, marshalEmployees_finite _ hfin]
  constructor
  · intro hin
    have h200 := deleteEmployee_store_present s ctx oid h hin
    have h404 := deleteEmployee_store_absent (deleteEmployee Store.collection ctx s).2 ctx oid h
      hgone
    refine ⟨h200, by rw [h200], hdocs, hlist, ?_, ?_, hothers, h404, by rw [h404]; rfl⟩
    · intro hfin
      apply hlistFinite
      intro e he
      obtain ⟨d, hd, rfl⟩ := List.mem_map.1 he
      exact hfin d hd
    · intro es hbody e he
      by_cases hall : ∀ e ∈ (deleteEmployee Store.collection ctx s).2.docs.map Document.toEmployee,
          e.Salary.isFinite = true
      · rw [hlistFinite hall] at hbody
        simp only [Body.json.injEq, Json.arr.injEq] at hbody
        have hmem : e.toJSON ∈ es.map Employee.toJSON := List.mem_map.2 ⟨e, he, rfl⟩
        rw [← hbody] at hmem
        obtain ⟨e1, he1, hsame⟩ := List.mem_map.1 hmem
        have heq : e1 = e := toJSON_injective e1 e hsame
        exact hothers e (heq ▸ he1)
      · have hbad : ∃ e ∈ (deleteEmployee Store.collection ctx s).2.docs.map Document.toEmployee,
            e.Salary.isFinite = false := by
          by_contra hno
          apply hall
          intro e1 he1
          cases hf : e1.Salary.isFinite with
          | true => rfl
          | false => exact absurd ⟨e1, he1, hf⟩ hno
        obtain ⟨e1, _, _, hm⟩ := marshalEmployees_nonfinite _ hbad
        rw [hlist] at hbody
        simp only [JSON, Marshal, hm, DefaultErrorHandler] at hbody
        cases hbody
  · intro hout
    have h404 := deleteEmployee_store_absent s ctx oid h hout
    refine ⟨h404, by rw [h404]; rfl, ?_⟩
    apply store_ext _ _ _ hcounter
    rw [hdocs]
    apply List.filter_eq_self.2
    intro d hd
    have hne : d._id ≠ oid := fun hdo => hout (List.mem_map.2 ⟨d, hd, hdo⟩)
    simpa using hne

theorem delete_then_list_on_model_store_witness :
    ObjectIDFromHex sampleId = .ok sampleOID ∧
      sampleOID ∈ sampleStore.docs.map Document._id ∧
      (deleteEmployee Store.collection ⟨sampleId, .ok ana⟩ sampleStore).1.status = 200 ∧
      (deleteEmployee Store.collection ⟨sampleId, .ok ana⟩
        (deleteEmployee Store.collection ⟨sampleId, .ok ana⟩ sampleStore).2).1.status = 404 := by
  have hin : sampleOID ∈ sampleStore.docs.map Document._id := by simp [sampleStore]
  have hall := (delete_then_list_on_model_store sampleStore ⟨sampleId, .ok ana⟩
    ⟨"", .ok ana⟩ sampleOID sampleId_parses).1 hin
  exact ⟨sampleId_parses, hin, hall.2.1, hall.2.2.2.2.2.2.2.2⟩

/-- C9: for a valid path id and a body that parsed, the one call `editEmployee`
issues is a find-one-and-update whose filter is the single element `_id` with the
parsed identifier and whose update is a single `$set` of `name`, `age` and
`salary` with the body's values; on the model collection the call leaves the
identifier of every stored document and every document of another identifier as
they were, and gives the matched document the three values. -/
theorem editEmployee_sets_three_fields_by_id {σ : Type} (coll : Collection σ) (ctx : Ctx)
    (db : σ) (s : Store) (oid : ObjectID) (employee : Employee)
    (hid : ObjectIDFromHex ctx.id = .ok oid) (hbody : ctx.BodyParser = .ok employee) :
    callsOf editEmployee coll ctx db =
        [.FindOneAndUpdate [("_id", .objectID oid)]
          [("$set", .document [("name", .string employee.Name), ("age", .int64 employee.Age),
            ("salary", .double employee.Salary)])]] ∧
      (editEmployee Store.collection ctx s).2.docs =
        s.docs.map (fun d =>
          if d._id = oid then ⟨d._id, employee.Name, employee.Age, employee.Salary⟩ else d) ∧
      (editEmployee Store.collection ctx s).2.docs.map Document._id =
        s.docs.map Document._id ∧
      (editEmployee Store.collection ctx s).2.docs.filter (fun d => decide (d._id ≠ oid)) =
        s.docs.filter (fun d => decide (d._id ≠ oid)) := by
  have hcalls : callsOf editEmployee coll ctx db =
      [.FindOneAndUpdate [("_id", .objectID oid)]
        [("$set", .document [("name", .string employee.Name), ("age", .int64 employee.Age),
          ("salary", .double employee.Salary)])]] := by
    unfold callsOf editEmployee
    simp only [hid, hbody, recording]
    rcases hr : coll.FindOneAndUpdate [("_id", .objectID oid)]
      [("$set", .document [("name", .string employee.Name), ("age", .int64 employee.Age),
        ("salary", .double employee.Salary)])] db with ⟨res, db1⟩
    cases he : res.Err with
    | none => simp [he]
    | some err => by_cases hno : err = .ErrNoDocuments <;> simp [he, hno]
  have hdocs : (editEmployee Store.collection ctx s).2.docs =
      s.docs.map (fun d =>
        if d._id = oid then ⟨d._id, employee.Name, employee.Age, employee.Salary⟩ else d) := by
    have hmap := updateFirst_id_eq_map oid
      (Document.applyUpdate [("$set", .document [("name", .string employee.Name),
        ("age", .int64 employee.Age), ("salary", .double employee.Salary)])]) s.docs s.unique
    simp only [applyUpdate_set] at hmap
    unfold editEmployee
    simp only [hid, hbody, Store.collection, Store.FindOneAndUpdate, matches_id]
    split
    · split <;> exact hmap
    · exact hmap
  refine ⟨hcalls, hdocs, ?_, ?_⟩
  · rw [hdocs, List.map_map]
    apply List.map_congr_left
    intro d _
    by_cases hd : d._id = oid <;> simp [hd]
  · rw [hdocs, List.filter_map]
    have hfil : ∀ l : List Document,
        (l.filter ((fun d => decide (d._id ≠ oid)) ∘ fun d =>
          if d._id = oid then ⟨d._id, employee.Name, employee.Age, employee.Salary⟩ else d)).map
          (fun d => if d._id = oid then ⟨d._id, employee.Name, employee.Age, employee.Salary⟩
            else d) = l.filter (fun d => decide (d._id ≠ oid)) := by
      intro l
      induction l with
      | nil => rfl
      | cons d ds ih =>
        by_cases hd : d._id = oid
        · simpa [List.filter_cons, hd] using ih
        · simpa [List.filter_cons, hd] using ih
    exact hfil s.docs

theorem editEmployee_sets_three_fields_by_id_witness :
    ObjectIDFromHex sampleId = .ok sampleOID ∧
      (editEmployee Store.collection
        ⟨sampleId, .ok ⟨"ffffffffffffffffffffffff", "Ana", 31, ⟨0x40B57C0000000000⟩⟩⟩
        sampleStore).2.docs.map Document._id = sampleStore.docs.map Document._id :=
  ⟨sampleId_parses,
    (editEmployee_sets_three_fields_by_id Store.collection
      ⟨sampleId, .ok ⟨"ffffffffffffffffffffffff", "Ana", 31, ⟨0x40B57C0000000000⟩⟩⟩
      sampleStore sampleStore sampleOID ⟨"ffffffffffffffffffffffff", "Ana", 31, ⟨0x40B57C0000000000⟩⟩
      sampleId_parses rfl).2.2.1⟩

theorem Hex_length (oid : ObjectID) : oid.Hex.length = 24 := by
  show (hexEncode oid.val).length = 24
  rw [hexEncode_length, oid.property]

/-- On the model collection, with a generated identifier that is not stored yet
and a submitted salary that is finite, `createEmployee` answers 201 with the JSON
of the stored record: the hexadecimal form of the generated identifier, 24
characters long, and the submitted name, age and salary; the record is appended to
the store. -/
theorem createEmployee_on_model_store (s : Store) (ctx : Ctx) (employee : Employee)
    (hbody : ctx.BodyParser = .ok employee)
    (hfresh : NewObjectID s.counter ∉ s.docs.map Document._id)
    (hfin : employee.Salary.isFinite = true) :
    (createEmployee Store.collection ctx s).1 =
        ⟨201, .json (.obj [("id", .str (NewObjectID s.counter).Hex),
          ("name", .str employee.Name), ("age", .int employee.Age),
          ("salary", .float employee.Salary)])⟩ ∧
      (NewObjectID s.counter).Hex.length = 24 ∧
      (createEmployee Store.collection ctx s).2.docs =
        s.docs ++ [⟨NewObjectID s.counter, employee.Name, employee.Age, employee.Salary⟩] := by
  have hne : (NewObjectID s.counter).Hex ≠ "" := by
    intro hempty
    have hlen := Hex_length (NewObjectID s.counter)
    rw [hempty] at hlen
    cases hlen
  have hnone : s.docs.find? (fun d => decide (d._id = NewObjectID s.counter)) = none := by
    apply List.find?_eq_none.2
    intro d hd hdo
    exact hfresh (List.mem_map.2 ⟨d, hd, by simpa using hdo⟩)
  have hm := MarshalJSON_finite
    ⟨(NewObjectID s.counter).Hex, employee.Name, employee.Age, employee.Salary⟩ hfin
  refine ⟨?_, Hex_length _, ?_⟩
  · unfold createEmployee
    simp [hbody, Store.collection, Store.InsertOne, Store.FindOne, hfresh, matches_id,
      List.find?_append, hnone, singleResultOf, SingleResult.Decode, Document.toEmployee,
      JSON, Marshal, hm, Employee.toJSON, hne]
  · unfold createEmployee
    simp [hbody, Store.collection, Store.InsertOne, Store.FindOne, hfresh]

theorem createEmployee_on_model_store_witness :
    (createEmployee Store.collection ⟨"", .ok ana⟩ Store.empty).1 =
      ⟨201, .json (.obj [("id", .str "000000000000000000000000"), ("name", .str "Ana"),
        ("age", .int 30), ("salary", .float ⟨0x40B3880000000000⟩)])⟩ :=
  (createEmployee_on_model_store Store.empty ⟨"", .ok ana⟩ ana rfl (by simp [Store.empty])
    rfl).1

end EmployeeApi
